import Mathlib

/-!
Verification development for the Breakthrough engine and tournament harness
(`src/breakthrough/engine.py`, `src/breakthrough/tournament.py`).

The Python classes are embedded shallowly:
* `Player`, `Piece`, `Move` mirror the classes of the same names; move
  coordinates are `Int × Int` pairs `(row, col)` exactly as in Python, since
  `Move.from_notation` can build out-of-range coordinates.
* `Board.grid` models Python's 8×8 nested list as a mapping from an in-range
  square `Fin 8 × Fin 8` to an optional piece; `get_piece` / `set_piece`
  carry the same out-of-range guards as the source.
* `Game` carries the same five fields as the Python `Game`, and
  `Game.make_move` is a pure rendering of `Game.make_move` (state in, state
  out, plus the returned boolean).
-/

/-- Python `Player` enum: the two players. -/
inductive Player where
  | WHITE
  | BLACK
deriving DecidableEq, Repr

/-- Python `Piece`: a piece is owned by exactly one player (`self.player`). -/
structure Piece where
  player : Player
deriving DecidableEq, Repr

/-- The expression `Player.BLACK if current == Player.WHITE else Player.WHITE`
used by `Game.make_move` to flip the side to move. -/
def otherPlayer (p : Player) : Player :=
  if p = Player.WHITE then Player.BLACK else Player.WHITE

/-- Python `Move` dataclass: `from_pos`, `to_pos` are `(row, col)` int pairs,
`is_capture` defaults to `False`. -/
structure Move where
  from_pos : Int × Int
  to_pos : Int × Int
  is_capture : Bool := false
deriving DecidableEq, Repr

/-- Python `Move.__eq__`: structural equality on the `(from_pos, to_pos)` pair
only — `is_capture` is ignored. -/
def moveEq (a b : Move) : Bool :=
  a.from_pos == b.from_pos && a.to_pos == b.to_pos

/-- Python `Board`: `BOARD_SIZE = 8`; the nested 8×8 list `self.grid` is
modelled as a total mapping on in-range squares. -/
structure Board where
  grid : Fin 8 × Fin 8 → Option Piece

instance : DecidableEq Board := fun a b =>
  decidable_of_iff (a.grid = b.grid) (by cases a; cases b; simp)

/-- Python `Board._is_valid_position`. -/
def Board.isValidPosition (row col : Int) : Prop :=
  0 ≤ row ∧ row < 8 ∧ 0 ≤ col ∧ col < 8

instance (row col : Int) : Decidable (Board.isValidPosition row col) := by
  unfold Board.isValidPosition; infer_instance

/-- The in-range square named by valid coordinates. -/
def Board.sq (row col : Int) (h : Board.isValidPosition row col) : Fin 8 × Fin 8 :=
  (⟨row.toNat, by obtain ⟨h1, h2, h3, h4⟩ := h; omega⟩,
   ⟨col.toNat, by obtain ⟨h1, h2, h3, h4⟩ := h; omega⟩)

/-- Python `Board.get_piece`: `None` for out-of-range coordinates. -/
def Board.get_piece (b : Board) (row col : Int) : Option Piece :=
  if h : Board.isValidPosition row col then b.grid (Board.sq row col h) else none

/-- Python `Board.set_piece`: a no-op for out-of-range coordinates. -/
def Board.set_piece (b : Board) (row col : Int) (p : Option Piece) : Board :=
  if h : Board.isValidPosition row col then
    ⟨Function.update b.grid (Board.sq row col h) p⟩
  else b

/-- Python `Board.__init__` / `_init_board`: the loops fill rows 6–7 with
WHITE pieces and rows 0–1 with BLACK pieces over an all-`None` grid; rendered
as the resulting mapping. -/
def Board.init : Board :=
  ⟨fun sq => if sq.1.val ≤ 1 then some ⟨Player.BLACK⟩
    else if 6 ≤ sq.1.val then some ⟨Player.WHITE⟩
    else none⟩

/-- Python `Game` state: board, side to move, move history, winner, terminal
flag. -/
structure Game where
  board : Board
  current_player : Player
  move_history : List Move
  winner : Option Player
  game_over : Bool
deriving DecidableEq

/-- Python `Game.__init__`. -/
def Game.init : Game :=
  { board := Board.init
    current_player := Player.WHITE
    move_history := []
    winner := none
    game_over := false }

/-- Python `Game._get_piece_moves`: forward move when the square ahead is
empty and on the board, then the two diagonal captures (offset −1 before +1)
when on the board and holding an opponent piece. -/
def Game.get_piece_moves (g : Game) (row col : Int) : List Move :=
  match g.board.get_piece row col with
  | none => []
  | some piece =>
    let forward_row : Int := if piece.player = Player.WHITE then row - 1 else row + 1
    let forward : List Move :=
      if 0 ≤ forward_row ∧ forward_row < 8 then
        match g.board.get_piece forward_row col with
        | none => [{ from_pos := (row, col), to_pos := (forward_row, col), is_capture := false }]
        | some _ => []
      else []
    let captures : List Move :=
      ([-1, 1] : List Int).flatMap (fun col_offset =>
        let capture_col := col + col_offset
        if 0 ≤ forward_row ∧ forward_row < 8 ∧ 0 ≤ capture_col ∧ capture_col < 8 then
          match g.board.get_piece forward_row capture_col with
          | some target =>
            if target.player ≠ piece.player then
              [{ from_pos := (row, col), to_pos := (forward_row, capture_col), is_capture := true }]
            else []
          | none => []
        else [])
    forward ++ captures

/-- Python `Game.get_legal_moves`: row-major scan of the 8×8 board, skipping
squares that are empty or hold an opponent piece, extending with the piece
moves of each own square. -/
def Game.get_legal_moves (g : Game) : List Move :=
  (List.range 8).flatMap (fun row =>
    (List.range 8).flatMap (fun col =>
      match g.board.get_piece row col with
      | none => []
      | some piece =>
        if piece.player = g.current_player then g.get_piece_moves row col else []))

/-- Python `Game._is_legal_move`: membership of the move in the current legal
move list, by the structural `Move.__eq__` (which ignores `is_capture`). -/
def Game.is_legal_move (g : Game) (m : Move) : Bool :=
  g.get_legal_moves.any (fun m2 => moveEq m m2)

/-- Python `Game._check_win`: the piece reached the opponent's back row. -/
def check_win (piece : Piece) (position : Int × Int) : Bool :=
  if piece.player = Player.WHITE then position.1 == 0 else position.1 == 7

/-- Python `Game.make_move`, as a pure function returning the Python `bool`
result together with the updated state.  An illegal move returns `false` with
the state untouched.  Otherwise the piece is relocated, the move appended to
history, the win checked (setting `winner`/`game_over`), the side to move
flipped unconditionally, and the stalemate-draw check run only when the game
is not already over.  The `none` branch of the source-square match is
unreachable under legality (`legal_from_occupied` below): Python would raise
there (`piece.player` on `None`). -/
def Game.make_move (g : Game) (m : Move) : Bool × Game :=
  if g.is_legal_move m = false then (false, g)
  else
    match g.board.get_piece m.from_pos.1 m.from_pos.2 with
    | none => (false, g)
    | some piece =>
      let b2 : Board :=
        (g.board.set_piece m.from_pos.1 m.from_pos.2 none).set_piece
          m.to_pos.1 m.to_pos.2 (some piece)
      let win : Bool := check_win piece m.to_pos
      let g1 : Game :=
        { board := b2
          current_player := otherPlayer g.current_player
          move_history := g.move_history ++ [m]
          winner := if win then some piece.player else g.winner
          game_over := g.game_over || win }
      if g1.game_over = false ∧ g1.get_legal_moves = [] then
        (true, { g1 with game_over := true, winner := none })
      else
        (true, g1)

example : Game.init.get_legal_moves.length = 8 := by decide

example : (Game.init.make_move { from_pos := (6, 4), to_pos := (5, 4) }).fst = true := by
  decide

example : (Game.init.make_move { from_pos := (1, 4), to_pos := (2, 4) }).snd = Game.init := by
  decide

/-! ### Concrete runs used by scenario theorems -/

/-- Apply a sequence of moves through `Game.make_move`, failing (`none`) as
soon as one is rejected: a `some` result is a state reachable from the
initial position by legal play. -/
def applyAll : Game → List Move → Option Game
  | g, [] => some g
  | g, m :: ms =>
    match g.make_move m with
    | (false, _) => none
    | (true, g2) => applyAll g2 ms

/-- A legal line from the initial position in which WHITE wins on its sixth
move by capturing into row 0 at (0,0), while BLACK shuffles pieces on the h/g
files. -/
def winLine : List Move :=
  [ { from_pos := (6, 0), to_pos := (5, 0) }
  , { from_pos := (1, 7), to_pos := (2, 7) }
  , { from_pos := (5, 0), to_pos := (4, 0) }
  , { from_pos := (2, 7), to_pos := (3, 7) }
  , { from_pos := (4, 0), to_pos := (3, 0) }
  , { from_pos := (3, 7), to_pos := (4, 7) }
  , { from_pos := (3, 0), to_pos := (2, 0) }
  , { from_pos := (4, 7), to_pos := (5, 7) }
  , { from_pos := (2, 0), to_pos := (1, 1), is_capture := true }
  , { from_pos := (1, 6), to_pos := (2, 6) }
  , { from_pos := (1, 1), to_pos := (0, 0), is_capture := true } ]

/-! ### Characterizing legal moves -/

theorem moveEq_iff {a b : Move} :
    moveEq a b = true ↔ a.from_pos = b.from_pos ∧ a.to_pos = b.to_pos := by
  simp [moveEq]

theorem get_piece_valid {b : Board} {row col : Int} {p : Piece}
    (h : b.get_piece row col = some p) : Board.isValidPosition row col := by
  by_contra hv
  rw [Board.get_piece, dif_neg hv] at h
  exact Option.noConfusion h

theorem get_piece_eq_grid (b : Board) {row col : Int}
    (hv : Board.isValidPosition row col) :
    b.get_piece row col = b.grid (Board.sq row col hv) := by
  rw [Board.get_piece, dif_pos hv]

theorem set_piece_grid (b : Board) {row col : Int} (p : Option Piece)
    (hv : Board.isValidPosition row col) :
    (b.set_piece row col p).grid = Function.update b.grid (Board.sq row col hv) p := by
  rw [Board.set_piece, dif_pos hv]

theorem sq_ne_of_row_ne {r1 c1 r2 c2 : Int} (h1 : Board.isValidPosition r1 c1)
    (h2 : Board.isValidPosition r2 c2) (hr : r1 ≠ r2) :
    Board.sq r1 c1 h1 ≠ Board.sq r2 c2 h2 := by
  intro he
  obtain ⟨ha1, ha2, ha3, ha4⟩ := h1
  obtain ⟨hb1, hb2, hb3, hb4⟩ := h2
  apply hr
  have hv : r1.toNat = r2.toNat := congrArg (fun x => (x.1 : Fin 8).val) he
  omega

/-- Every move produced by `_get_piece_moves(row, col)` starts at `(row, col)`
on a square holding a piece, advances one row in that piece's direction to an
in-range square, and is either a forward move into an empty square of the
same column or a diagonal capture of an opponent piece. -/
theorem mem_get_piece_moves {g : Game} {row col : Int} {m : Move}
    (h : m ∈ g.get_piece_moves row col) :
    ∃ piece, g.board.get_piece row col = some piece ∧
      m.from_pos = (row, col) ∧
      m.to_pos.1 = (if piece.player = Player.WHITE then row - 1 else row + 1) ∧
      Board.isValidPosition m.to_pos.1 m.to_pos.2 ∧
      ((g.board.get_piece m.to_pos.1 m.to_pos.2 = none ∧ m.to_pos.2 = col) ∨
       (∃ target, g.board.get_piece m.to_pos.1 m.to_pos.2 = some target ∧
          target.player ≠ piece.player ∧
          (m.to_pos.2 = col - 1 ∨ m.to_pos.2 = col + 1))) := by
  unfold Game.get_piece_moves at h
  cases hp : g.board.get_piece row col with
  | none => rw [hp] at h; simp at h
  | some piece =>
    rw [hp] at h
    dsimp only at h
    simp only [List.mem_append] at h
    have hvfrom : Board.isValidPosition row col := get_piece_valid hp
    refine ⟨piece, rfl, ?_⟩
    generalize hfr : (if piece.player = Player.WHITE then row - 1 else row + 1) = fr at h ⊢
    rcases h with hf | hc
    · -- forward branch
      by_cases hrange : 0 ≤ fr ∧ fr < 8
      · rw [if_pos hrange] at hf
        cases hq : g.board.get_piece fr col with
        | none =>
          rw [hq] at hf
          dsimp only at hf
          simp only [List.mem_singleton] at hf
          subst hf
          exact ⟨rfl, rfl, ⟨hrange.1, hrange.2, hvfrom.2.2.1, hvfrom.2.2.2⟩,
            Or.inl ⟨hq, rfl⟩⟩
        | some q =>
          rw [hq] at hf
          dsimp only at hf
          simp at hf
      · rw [if_neg hrange] at hf
        simp at hf
    · -- capture branch
      simp only [List.mem_flatMap] at hc
      obtain ⟨off, hoff, hbody⟩ := hc
      by_cases hrange : 0 ≤ fr ∧ fr < 8 ∧ 0 ≤ col + off ∧ col + off < 8
      · rw [if_pos hrange] at hbody
        cases hq : g.board.get_piece fr (col + off) with
        | none =>
          rw [hq] at hbody
          dsimp only at hbody
          simp at hbody
        | some target =>
          rw [hq] at hbody
          dsimp only at hbody
          by_cases hne : target.player ≠ piece.player
          · rw [if_pos hne] at hbody
            simp only [List.mem_singleton] at hbody
            subst hbody
            refine ⟨rfl, rfl, ⟨hrange.1, hrange.2.1, hrange.2.2.1, hrange.2.2.2⟩,
              Or.inr ⟨target, hq, hne, ?_⟩⟩
            simp only [List.mem_cons, List.mem_singleton, List.not_mem_nil,
              or_false] at hoff
            rcases hoff with h1 | h1
            · left; rw [h1]; ring
            · right; rw [h1]
          · rw [if_neg hne] at hbody
            simp at hbody
      · rw [if_neg hrange] at hbody
        simp at hbody

/-- Every member of `get_legal_moves()` starts on a square holding a piece of
the side to move and satisfies the geometry of `mem_get_piece_moves`. -/
theorem mem_get_legal_moves {g : Game} {m : Move} (h : m ∈ g.get_legal_moves) :
    ∃ piece, g.board.get_piece m.from_pos.1 m.from_pos.2 = some piece ∧
      piece.player = g.current_player ∧
      Board.isValidPosition m.from_pos.1 m.from_pos.2 ∧
      Board.isValidPosition m.to_pos.1 m.to_pos.2 ∧
      m.to_pos.1 = (if g.current_player = Player.WHITE then m.from_pos.1 - 1
        else m.from_pos.1 + 1) ∧
      ((g.board.get_piece m.to_pos.1 m.to_pos.2 = none ∧ m.to_pos.2 = m.from_pos.2) ∨
       (∃ target, g.board.get_piece m.to_pos.1 m.to_pos.2 = some target ∧
          target.player ≠ g.current_player ∧
          (m.to_pos.2 = m.from_pos.2 - 1 ∨ m.to_pos.2 = m.from_pos.2 + 1))) := by
  unfold Game.get_legal_moves at h
  simp only [List.mem_flatMap, List.mem_range] at h
  obtain ⟨row, hrow, col, hcol, hmem⟩ := h
  cases hp : g.board.get_piece (row : Int) (col : Int) with
  | none => rw [hp] at hmem; simp at hmem
  | some piece =>
    rw [hp] at hmem
    dsimp only at hmem
    by_cases hpl : piece.player = g.current_player
    · rw [if_pos hpl] at hmem
      obtain ⟨piece2, hp2, hfrom, hto1, hvto, hdest⟩ := mem_get_piece_moves hmem
      rw [hp] at hp2
      injection hp2 with hp2
      subst hp2
      have hf1 : m.from_pos.1 = (row : Int) := by rw [hfrom]
      have hf2 : m.from_pos.2 = (col : Int) := by rw [hfrom]
      refine ⟨piece, ?_, hpl, ?_, hvto, ?_, ?_⟩
      · rw [hf1, hf2]; exact hp
      · rw [hf1, hf2]
        exact get_piece_valid hp
      · rw [hto1, hpl, hf1]
      · rcases hdest with ⟨hnone, hcol2⟩ | ⟨target, htg, hne, hoff⟩
        · exact Or.inl ⟨hnone, by rw [hf2]; exact hcol2⟩
        · refine Or.inr ⟨target, htg, by rw [← hpl]; exact hne, ?_⟩
          rcases hoff with h1 | h1
          · left; rw [h1, hf2]
          · right; rw [h1, hf2]
    · rw [if_neg hpl] at hmem
      simp at hmem

/-- `_is_legal_move` transfers the characterization to the tested move (whose
`is_capture` flag may differ from the generated one). -/
theorem legal_char {g : Game} {m : Move} (h : g.is_legal_move m = true) :
    ∃ piece, g.board.get_piece m.from_pos.1 m.from_pos.2 = some piece ∧
      piece.player = g.current_player ∧
      Board.isValidPosition m.from_pos.1 m.from_pos.2 ∧
      Board.isValidPosition m.to_pos.1 m.to_pos.2 ∧
      m.to_pos.1 = (if g.current_player = Player.WHITE then m.from_pos.1 - 1
        else m.from_pos.1 + 1) ∧
      ((g.board.get_piece m.to_pos.1 m.to_pos.2 = none ∧ m.to_pos.2 = m.from_pos.2) ∨
       (∃ target, g.board.get_piece m.to_pos.1 m.to_pos.2 = some target ∧
          target.player ≠ g.current_player ∧
          (m.to_pos.2 = m.from_pos.2 - 1 ∨ m.to_pos.2 = m.from_pos.2 + 1))) := by
  rw [Game.is_legal_move, List.any_eq_true] at h
  obtain ⟨m2, hm2, heq⟩ := h
  obtain ⟨he1, he2⟩ := moveEq_iff.mp heq
  obtain ⟨piece, h1, h2, h3, h4, h5, h6⟩ := mem_get_legal_moves hm2
  rw [← he1] at h1 h3 h5
  rw [← he2] at h4 h5
  rw [← he1, ← he2] at h6
  exact ⟨piece, h1, h2, h3, h4, h5, h6⟩

/-- A legal move starts from a square occupied by the side to move: the
`none` branch of `make_move`'s source-square lookup is unreachable. -/
theorem legal_from_occupied {g : Game} {m : Move} (h : g.is_legal_move m = true) :
    g.board.get_piece m.from_pos.1 m.from_pos.2 = some ⟨g.current_player⟩ := by
  obtain ⟨piece, h1, h2, _⟩ := legal_char h
  cases piece
  cases h2
  exact h1

/-! ### Unfolding `make_move` on the legal path -/

/-- The state `make_move` builds on the legal path just before its
stalemate-draw check: piece relocated, move appended, win recorded, side to
move flipped unconditionally. -/
def moveResult (g : Game) (m : Move) : Game :=
  { board := (g.board.set_piece m.from_pos.1 m.from_pos.2 none).set_piece
      m.to_pos.1 m.to_pos.2 (some ⟨g.current_player⟩)
    current_player := otherPlayer g.current_player
    move_history := g.move_history ++ [m]
    winner := if check_win ⟨g.current_player⟩ m.to_pos then some g.current_player
      else g.winner
    game_over := g.game_over || check_win ⟨g.current_player⟩ m.to_pos }

theorem make_move_illegal {g : Game} {m : Move} (h : g.is_legal_move m = false) :
    g.make_move m = (false, g) := by
  unfold Game.make_move
  rw [if_pos h]

theorem make_move_fst_legal {g : Game} {m : Move} (h : (g.make_move m).fst = true) :
    g.is_legal_move m = true := by
  cases hl : g.is_legal_move m with
  | true => rfl
  | false => rw [make_move_illegal hl] at h; exact Bool.noConfusion h

theorem make_move_legal_eq {g : Game} {m : Move} (h : g.is_legal_move m = true) :
    g.make_move m =
      (if (moveResult g m).game_over = false ∧ (moveResult g m).get_legal_moves = [] then
        (true, { moveResult g m with game_over := true, winner := none })
      else (true, moveResult g m)) := by
  have hp := legal_from_occupied h
  have hcond : ¬ (g.is_legal_move m = false) := by rw [h]; exact fun hc => Bool.noConfusion hc
  unfold Game.make_move
  rw [if_neg hcond, hp]
  rfl

theorem get_legal_moves_set_flags (g : Game) (w : Option Player) (b : Bool) :
    ({ g with winner := w, game_over := b } : Game).get_legal_moves = g.get_legal_moves := rfl

theorem make_move_board {g : Game} {m : Move} (h : g.is_legal_move m = true) :
    (g.make_move m).snd.board = (moveResult g m).board := by
  rw [make_move_legal_eq h]
  dsimp only
  split <;> rfl

theorem make_move_current {g : Game} {m : Move} (h : g.is_legal_move m = true) :
    (g.make_move m).snd.current_player = otherPlayer g.current_player := by
  rw [make_move_legal_eq h]
  dsimp only
  split <;> rfl

theorem make_move_history {g : Game} {m : Move} (h : g.is_legal_move m = true) :
    (g.make_move m).snd.move_history = g.move_history ++ [m] := by
  rw [make_move_legal_eq h]
  dsimp only
  split <;> rfl

theorem make_move_snd_legal_moves {g : Game} {m : Move} (h : g.is_legal_move m = true) :
    (g.make_move m).snd.get_legal_moves = (moveResult g m).get_legal_moves := by
  rw [make_move_legal_eq h]
  dsimp only
  split
  · exact get_legal_moves_set_flags (moveResult g m) none true
  · rfl

theorem make_move_win {g : Game} {m : Move} (h : g.is_legal_move m = true)
    (hw : check_win ⟨g.current_player⟩ m.to_pos = true) :
    (g.make_move m).snd.game_over = true ∧
    (g.make_move m).snd.winner = some g.current_player := by
  rw [make_move_legal_eq h]
  have hgo : (moveResult g m).game_over = true := by
    simp [moveResult, hw]
  rw [if_neg (by rw [hgo]; rintro ⟨hc, -⟩; exact Bool.noConfusion hc)]
  refine ⟨hgo, ?_⟩
  simp [moveResult, hw]

theorem make_move_no_win {g : Game} {m : Move} (h : g.is_legal_move m = true)
    (hw : check_win ⟨g.current_player⟩ m.to_pos = false) (hgo : g.game_over = false) :
    (g.make_move m).snd =
      (if (moveResult g m).get_legal_moves = [] then
        { moveResult g m with game_over := true, winner := none }
      else moveResult g m) := by
  rw [make_move_legal_eq h]
  have hg1 : (moveResult g m).game_over = false := by
    simp [moveResult, hw, hgo]
  by_cases hl : (moveResult g m).get_legal_moves = []
  · rw [if_pos ⟨hg1, hl⟩, if_pos hl]
  · rw [if_neg (by rintro ⟨-, hc⟩; exact hl hc), if_neg hl]

/-! ### Scenario states -/

/-- The spec's scenario state: empty board except a WHITE (First) piece at
(1,4), WHITE to move. -/
def scenarioWin : Game :=
  { board := ⟨fun sq => if sq = (1, 4) then some ⟨Player.WHITE⟩ else none⟩
    current_player := Player.WHITE
    move_history := []
    winner := none
    game_over := false }

/-- A position where WHITE has a quiet move after which BLACK is immobilized:
WHITE pieces at (7,0) and (4,4), a BLACK piece at (6,0) blocked by the WHITE
piece ahead of it with no capture available. -/
def scenarioStale : Game :=
  { board := ⟨fun sq =>
      if sq = (7, 0) then some ⟨Player.WHITE⟩
      else if sq = (4, 4) then some ⟨Player.WHITE⟩
      else if sq = (6, 0) then some ⟨Player.BLACK⟩
      else none⟩
    current_player := Player.WHITE
    move_history := []
    winner := none
    game_over := false }

/-- A terminal drawn state: empty board, WHITE to move with no legal moves. -/
def drawTerminal : Game :=
  { board := ⟨fun _ => none⟩
    current_player := Player.WHITE
    move_history := []
    winner := none
    game_over := true }

/-! ### Claim theorems: engine state machine -/

/-- C1 (counterexample): terminal states are NOT sticky.  `winLine` is an
11-ply legal line from the initial position ending in a WHITE back-rank win
(`game_over = true`); because `make_move` never consults `game_over` and the
turn was flipped to the losing side, the further BLACK move (1,0)→(2,0) is
accepted (`make_move` returns `True`) and mutates the state (history grows to
12). -/
theorem claim_C1_counterexample :
    (applyAll Game.init winLine).isSome = true ∧
    ((applyAll Game.init winLine).getD Game.init).game_over = true ∧
    ((applyAll Game.init winLine).getD Game.init).winner = some Player.WHITE ∧
    (((applyAll Game.init winLine).getD Game.init).make_move
        { from_pos := (1, 0), to_pos := (2, 0) }).fst = true ∧
    (((applyAll Game.init winLine).getD Game.init).make_move
        { from_pos := (1, 0), to_pos := (2, 0) }).snd.move_history.length = 12 := by
  decide

/-- C1 (amended): a terminal state rejects every move, unchanged, exactly
when the side left to move has no legal moves — which holds for every
stalemate-draw terminal state, but not after a back-rank win, where the turn
was flipped to the losing side. -/
theorem claim_C1_amended (g : Game) (m : Move) (hgo : g.game_over = true)
    (hempty : g.get_legal_moves = []) :
    g.make_move m = (false, g) := by
  apply make_move_illegal
  rw [Game.is_legal_move, hempty]
  rfl

/-- Witness for `claim_C1_amended` at the concrete terminal draw state. -/
theorem claim_C1_witness :
    drawTerminal.make_move { from_pos := (1, 4), to_pos := (2, 4) } =
      (false, drawTerminal) :=
  claim_C1_amended drawTerminal _ rfl (by decide)

/-- C2: a move that is not a member of the current legal-move list (by the
structural `Move.__eq__` membership that `_is_legal_move` performs) is
rejected: `make_move` returns `False` and the entire state — board, side to
move, history, winner, terminal flag — is unchanged. -/
theorem claim_C2 (g : Game) (m : Move) (h : g.is_legal_move m = false) :
    g.make_move m = (false, g) :=
  make_move_illegal h

/-- Witness for `claim_C2`: a BLACK move on WHITE's turn from the initial
position. -/
theorem claim_C2_witness :
    Game.init.make_move { from_pos := (1, 4), to_pos := (2, 4) } = (false, Game.init) :=
  claim_C2 Game.init _ (by decide)

/-- C3: from an in-progress state, a legal move whose destination lies on the
opponent's back rank (`_check_win` for the mover) succeeds, sets the terminal
flag, and records the mover as winner. -/
theorem claim_C3 (g : Game) (m : Move) (hprog : g.game_over = false)
    (hleg : g.is_legal_move m = true)
    (hwin : check_win ⟨g.current_player⟩ m.to_pos = true) :
    (g.make_move m).fst = true ∧
    (g.make_move m).snd.game_over = true ∧
    (g.make_move m).snd.winner = some g.current_player := by
  refine ⟨?_, (make_move_win hleg hwin).1, (make_move_win hleg hwin).2⟩
  rw [make_move_legal_eq hleg]
  split <;> rfl

/-- Witness for `claim_C3`: the spec's scenario — WHITE at (1,4) plays
(1,4)→(0,4). -/
theorem claim_C3_witness :
    (scenarioWin.make_move { from_pos := (1, 4), to_pos := (0, 4) }).fst = true ∧
    (scenarioWin.make_move { from_pos := (1, 4), to_pos := (0, 4) }).snd.game_over = true ∧
    (scenarioWin.make_move { from_pos := (1, 4), to_pos := (0, 4) }).snd.winner =
      some scenarioWin.current_player :=
  claim_C3 scenarioWin _ rfl (by decide) (by decide)

/-- C4: after a successful move that is not a back-rank win, from an
in-progress state, if the side newly to move has zero legal moves the game
becomes terminal with `winner = none` (a draw, never a loss for the
immobilized side); and when the move IS a back-rank win the stalemate check
is skipped — the winner stays the mover and is not overwritten. -/
theorem claim_C4 (g : Game) (m : Move) (hleg : g.is_legal_move m = true) :
    (g.game_over = false →
      check_win ⟨g.current_player⟩ m.to_pos = false →
      (g.make_move m).snd.get_legal_moves = [] →
      (g.make_move m).snd.game_over = true ∧ (g.make_move m).snd.winner = none) ∧
    (check_win ⟨g.current_player⟩ m.to_pos = true →
      (g.make_move m).snd.winner = some g.current_player) := by
  constructor
  · intro hgo hw hempty
    have heq := make_move_no_win hleg hw hgo
    by_cases hl : (moveResult g m).get_legal_moves = []
    · rw [heq, if_pos hl]
      exact ⟨rfl, rfl⟩
    · exfalso
      rw [heq, if_neg hl] at hempty
      exact hl hempty
  · intro hw
    exact (make_move_win hleg hw).2

/-- Witness for `claim_C4`: WHITE plays the quiet (4,4)→(3,4) in
`scenarioStale`, leaving BLACK's only piece immobilized — the game ends as a
draw with no winner. -/
theorem claim_C4_witness :
    (scenarioStale.make_move { from_pos := (4, 4), to_pos := (3, 4) }).snd.game_over = true ∧
    (scenarioStale.make_move { from_pos := (4, 4), to_pos := (3, 4) }).snd.winner = none :=
  (claim_C4 scenarioStale _ (by decide)).1 rfl (by decide) (by decide)

/-- C5 (counterexample): the side to move DOES change on a terminal move.
In the spec's own scenario (WHITE at (1,4) playing (1,4)→(0,4), a winning
move), the successful `make_move` leaves `current_player = BLACK`: the flip
is unconditional, contradicting "the side to move does not change". -/
theorem claim_C5_counterexample :
    (scenarioWin.make_move { from_pos := (1, 4), to_pos := (0, 4) }).fst = true ∧
    (scenarioWin.make_move { from_pos := (1, 4), to_pos := (0, 4) }).snd.game_over = true ∧
    scenarioWin.current_player = Player.WHITE ∧
    (scenarioWin.make_move { from_pos := (1, 4), to_pos := (0, 4) }).snd.current_player =
      Player.BLACK := by
  decide

/-- C5 (amended): after every successful `make_move` the side to move flips
to the other side unconditionally — also when the move just made the game
terminal. -/
theorem claim_C5_amended (g : Game) (m : Move) (h : (g.make_move m).fst = true) :
    (g.make_move m).snd.current_player = otherPlayer g.current_player :=
  make_move_current (make_move_fst_legal h)

/-- Witness for `claim_C5_amended` at the first move of a fresh game. -/
theorem claim_C5_witness :
    (Game.init.make_move { from_pos := (6, 4), to_pos := (5, 4) }).snd.current_player =
      otherPlayer Game.init.current_player :=
  claim_C5_amended Game.init _ (by decide)

/-- C9: from the initial position `get_legal_moves` returns exactly these 8
moves, in exactly this order — the row-major square scan reaches the row-6
WHITE pawns first, each contributing its forward move only (row-7 pawns are
blocked, no captures exist) — all non-capture and same-column. -/
theorem claim_C9 :
    Game.init.get_legal_moves =
      [ { from_pos := (6, 0), to_pos := (5, 0), is_capture := false }
      , { from_pos := (6, 1), to_pos := (5, 1), is_capture := false }
      , { from_pos := (6, 2), to_pos := (5, 2), is_capture := false }
      , { from_pos := (6, 3), to_pos := (5, 3), is_capture := false }
      , { from_pos := (6, 4), to_pos := (5, 4), is_capture := false }
      , { from_pos := (6, 5), to_pos := (5, 5), is_capture := false }
      , { from_pos := (6, 6), to_pos := (5, 6), is_capture := false }
      , { from_pos := (6, 7), to_pos := (5, 7), is_capture := false } ] ∧
    Game.init.get_legal_moves.length = 8 ∧
    Game.init.get_legal_moves.all
      (fun m => !m.is_capture && m.from_pos.2 == m.to_pos.2) = true := by
  decide

/-! ### Piece conservation (C10) -/

/-- Number of pieces of one player on the board. -/
def pieceCount (b : Board) (pl : Player) : Nat :=
  (Finset.univ.filter (fun sq : Fin 8 × Fin 8 => b.grid sq = some ⟨pl⟩)).card

theorem otherPlayer_ne (p : Player) : otherPlayer p ≠ p := by
  cases p <;> simp [otherPlayer]

theorem eq_other_of_ne {a b : Player} (h : a ≠ b) : a = otherPlayer b := by
  cases a <;> cases b <;> simp_all [otherPlayer]

/-- Updating one square changes the count of matching squares by swapping the
old value's contribution for the new one's. -/
theorem count_update (f : Fin 8 × Fin 8 → Option Piece) (a : Fin 8 × Fin 8)
    (v : Option Piece) (pl : Player) :
    (Finset.univ.filter (fun sq => Function.update f a v sq = some ⟨pl⟩)).card +
      (if f a = some ⟨pl⟩ then 1 else 0) =
    (Finset.univ.filter (fun sq => f sq = some ⟨pl⟩)).card +
      (if v = some ⟨pl⟩ then 1 else 0) := by
  classical
  rw [Finset.card_filter, Finset.card_filter,
    ← Finset.sum_erase_add Finset.univ _ (Finset.mem_univ a),
    ← Finset.sum_erase_add Finset.univ
      (fun sq => if f sq = some ⟨pl⟩ then 1 else 0) (Finset.mem_univ a)]
  have hs : (∑ x ∈ Finset.univ.erase a,
      if Function.update f a v x = some ⟨pl⟩ then 1 else 0) =
      ∑ x ∈ Finset.univ.erase a, if f x = some ⟨pl⟩ then 1 else 0 := by
    apply Finset.sum_congr rfl
    intro x hx
    rw [Function.update_noteq (Finset.ne_of_mem_erase hx)]
  rw [hs, Function.update_same]
  omega

/-- Balance equation for one successful move: the destination and source
squares swap their contributions for the mover's piece. -/
theorem pieceCount_after_move {g : Game} {m : Move} (hleg : g.is_legal_move m = true)
    (pl : Player) :
    pieceCount (g.make_move m).snd.board pl +
      (if g.board.get_piece m.from_pos.1 m.from_pos.2 = some ⟨pl⟩ then 1 else 0) +
      (if g.board.get_piece m.to_pos.1 m.to_pos.2 = some ⟨pl⟩ then 1 else 0) =
    pieceCount g.board pl +
      (if (some ⟨g.current_player⟩ : Option Piece) = some ⟨pl⟩ then 1 else 0) := by
  obtain ⟨piece, hp, hpl, hvf, hvt, hto1, hdest⟩ := legal_char hleg
  have hrne : m.from_pos.1 ≠ m.to_pos.1 := by
    rw [hto1]; split <;> omega
  have hne : Board.sq m.from_pos.1 m.from_pos.2 hvf ≠ Board.sq m.to_pos.1 m.to_pos.2 hvt :=
    sq_ne_of_row_ne hvf hvt hrne
  have hg2 : (g.make_move m).snd.board.grid =
      Function.update
        (Function.update g.board.grid (Board.sq m.from_pos.1 m.from_pos.2 hvf) none)
        (Board.sq m.to_pos.1 m.to_pos.2 hvt) (some ⟨g.current_player⟩) := by
    rw [make_move_board hleg]
    show ((g.board.set_piece m.from_pos.1 m.from_pos.2 none).set_piece
      m.to_pos.1 m.to_pos.2 (some ⟨g.current_player⟩)).grid = _
    rw [set_piece_grid _ _ hvt, set_piece_grid _ _ hvf]
  have e2 := count_update
    (Function.update g.board.grid (Board.sq m.from_pos.1 m.from_pos.2 hvf) none)
    (Board.sq m.to_pos.1 m.to_pos.2 hvt) (some ⟨g.current_player⟩) pl
  have e1 := count_update g.board.grid (Board.sq m.from_pos.1 m.from_pos.2 hvf) none pl
  rw [Function.update_noteq (Ne.symm hne)] at e2
  have hafter : pieceCount (g.make_move m).snd.board pl =
      (Finset.univ.filter (fun sq =>
        Function.update
          (Function.update g.board.grid (Board.sq m.from_pos.1 m.from_pos.2 hvf) none)
          (Board.sq m.to_pos.1 m.to_pos.2 hvt) (some ⟨g.current_player⟩) sq =
        some ⟨pl⟩)).card := by
    rw [pieceCount, hg2]
  have hgetf : g.board.get_piece m.from_pos.1 m.from_pos.2 =
      g.board.grid (Board.sq m.from_pos.1 m.from_pos.2 hvf) := get_piece_eq_grid _ hvf
  have hgett : g.board.get_piece m.to_pos.1 m.to_pos.2 =
      g.board.grid (Board.sq m.to_pos.1 m.to_pos.2 hvt) := get_piece_eq_grid _ hvt
  rw [hafter, hgetf, hgett, pieceCount]
  have hnone : (if (none : Option Piece) = some ⟨pl⟩ then 1 else 0) = 0 := by simp
  rw [hnone] at e1
  omega

/-- C10: a successful `make_move` never increases piece counts: the mover's
count is always preserved; the opponent's count is preserved when the
destination square was empty (non-capture) and drops by exactly one when it
held a piece (capture); and `set_piece` is a no-op outside the 8×8 grid, so
no operation ever stores a piece off the board. -/
theorem claim_C10 :
    (∀ (g : Game) (m : Move), (g.make_move m).fst = true →
      pieceCount (g.make_move m).snd.board g.current_player =
        pieceCount g.board g.current_player ∧
      (g.board.get_piece m.to_pos.1 m.to_pos.2 = none →
        pieceCount (g.make_move m).snd.board (otherPlayer g.current_player) =
          pieceCount g.board (otherPlayer g.current_player)) ∧
      (∀ target, g.board.get_piece m.to_pos.1 m.to_pos.2 = some target →
        pieceCount (g.make_move m).snd.board (otherPlayer g.current_player) + 1 =
          pieceCount g.board (otherPlayer g.current_player))) ∧
    (∀ (b : Board) (row col : Int) (p : Option Piece),
      ¬ Board.isValidPosition row col → b.set_piece row col p = b) := by
  constructor
  · intro g m hf
    have hleg := make_move_fst_legal hf
    have hocc := legal_from_occupied hleg
    obtain ⟨piece, hp, hpl, hvf, hvt, hto1, hdest⟩ := legal_char hleg
    have hfrom_other :
        (if g.board.get_piece m.from_pos.1 m.from_pos.2 =
            some ⟨otherPlayer g.current_player⟩ then 1 else 0) = 0 := by
      rw [hocc, if_neg]
      intro hcc
      injection hcc with hcc
      injection hcc with h2
      exact otherPlayer_ne g.current_player h2.symm
    refine ⟨?_, ?_, ?_⟩
    · have e := pieceCount_after_move hleg g.current_player
      have hto0 : (if g.board.get_piece m.to_pos.1 m.to_pos.2 =
          some ⟨g.current_player⟩ then 1 else 0) = 0 := by
        rcases hdest with ⟨hn, -⟩ | ⟨target, ht, htp, -⟩
        · rw [hn]; simp
        · rw [ht, if_neg]
          intro hcc
          injection hcc with hcc
          exact htp (by rw [hcc])
      rw [if_pos hocc, hto0, if_pos rfl] at e
      omega
    · intro hnone
      have e := pieceCount_after_move hleg (otherPlayer g.current_player)
      have hto0 : (if g.board.get_piece m.to_pos.1 m.to_pos.2 =
          some ⟨otherPlayer g.current_player⟩ then 1 else 0) = 0 := by
        rw [hnone]; simp
      have hrhs : ((if (some ⟨g.current_player⟩ : Option Piece) =
          some ⟨otherPlayer g.current_player⟩ then 1 else 0) : Nat) = 0 := by
        rw [if_neg]
        intro hcc
        injection hcc with hcc
        injection hcc with h2
        exact otherPlayer_ne g.current_player h2.symm
      rw [hfrom_other, hto0, hrhs] at e
      omega
    · intro target htgt
      have e := pieceCount_after_move hleg (otherPlayer g.current_player)
      have htp : target.player ≠ g.current_player := by
        rcases hdest with ⟨hn, -⟩ | ⟨t2, ht2, htp2, -⟩
        · rw [hn] at htgt; exact Option.noConfusion htgt
        · rw [ht2] at htgt
          injection htgt with htgt
          rw [← htgt]; exact htp2
      have htgt_eq : target = ⟨otherPlayer g.current_player⟩ := by
        cases target with
        | mk tp => exact congrArg Piece.mk (eq_other_of_ne htp)
      have hto1v : (if g.board.get_piece m.to_pos.1 m.to_pos.2 =
          some ⟨otherPlayer g.current_player⟩ then 1 else 0) = 1 := by
        rw [htgt, htgt_eq, if_pos rfl]
      have hrhs : ((if (some ⟨g.current_player⟩ : Option Piece) =
          some ⟨otherPlayer g.current_player⟩ then 1 else 0) : Nat) = 0 := by
        rw [if_neg]
        intro hcc
        injection hcc with hcc
        injection hcc with h2
        exact otherPlayer_ne g.current_player h2.symm
      rw [hfrom_other, hto1v, hrhs] at e
      omega
  · intro b row col p h
    rw [Board.set_piece, dif_neg h]

/-- Witness for `claim_C10`: the first move of a fresh game preserves both
piece counts (16 and 16). -/
theorem claim_C10_witness :
    pieceCount (Game.init.make_move { from_pos := (6, 4), to_pos := (5, 4) }).snd.board
        Player.WHITE = pieceCount Game.init.board Player.WHITE ∧
    pieceCount (Game.init.make_move { from_pos := (6, 4), to_pos := (5, 4) }).snd.board
        Player.BLACK = pieceCount Game.init.board Player.BLACK :=
  ⟨(claim_C10.1 Game.init _ (by decide)).1,
   (claim_C10.1 Game.init _ (by decide)).2.1 (by decide)⟩

/-! ### Move notation (C7, C8) -/

/-- The characters of the delimiter `" to "`. -/
def sepChars : List Char := [' ', 't', 'o', ' ']

/-- Python `str.split(" to ")` on the character list: scan left to right for
the next occurrence of the delimiter (the first pattern is exactly "the
delimiter is a prefix here"), consume it and split; empty pieces are kept. -/
def splitToSep : List Char → List (List Char)
  | ' ' :: 't' :: 'o' :: ' ' :: rest => [] :: splitToSep rest
  | [] => [[]]
  | c :: rest =>
    match splitToSep rest with
    | [] => [[c]]
    | p :: ps => (c :: p) :: ps

theorem splitToSep_cons_not_space (c : Char) (rest : List Char) (hc : c ≠ ' ') :
    splitToSep (c :: rest) =
      match splitToSep rest with
      | [] => [[c]]
      | p :: ps => (c :: p) :: ps := by
  rw [splitToSep.eq_def]
  split
  · next rest2 heq =>
    injection heq with h1 h2
    exact absurd h1 hc
  · next heq => exact List.noConfusion heq
  · next c2 rest2 h1 h2 heq =>
    injection heq with he1 he2
    subst he1
    subst he2
    rfl

/-- The code points starting the 66 runs of Unicode decimal digits (category
Nd; every run is ten consecutive code points carrying the values 0–9 in
order) — Unicode 14.0.0, the table of the CPython 3.11 `unicodedata` the
program runs under. -/
def ndRangeStarts : List Nat :=
  [48, 1632, 1776, 1984, 2406, 2534, 2662, 2790, 2918, 3046, 3174, 3302,
   3430, 3558, 3664, 3792, 3872, 4160, 4240, 6112, 6160, 6470, 6608, 6784,
   6800, 6992, 7088, 7232, 7248, 42528, 43216, 43264, 43472, 43504, 43600,
   44016, 65296, 66720, 68912, 69734, 69872, 69942, 70096, 70384, 70736,
   70864, 71248, 71360, 71472, 71904, 72016, 72784, 73040, 73120, 92768,
   92864, 93008, 120782, 120792, 120802, 120812, 120822, 123200, 123632,
   125264, 130032]

/-- Python `int()` applied to a single character (the `int(n[1])` call inside
`notation_to_pos`): it succeeds exactly on Unicode decimal digits — ASCII
`'0'`–`'9'` and the other Nd runs alike, e.g. `int('٣') = 3` — returning the
digit's decimal value, and raises `ValueError` on every other character. -/
def pyIntDigit (c : Char) : Option Nat :=
  (ndRangeStarts.find? (fun s => s ≤ c.toNat && c.toNat < s + 10)).map
    (fun s => c.toNat - s)

/-- Python `notation_to_pos` (inner helper of `from_notation`): reads only
`n[0]` as the file (`ord(n[0]) - ord('a')`, unchecked) and `n[1]` as the rank
(`8 - int(n[1])`, unchecked); fails when the part has fewer than two
characters (IndexError) or `int(n[1])` raises (second character not a
Unicode decimal digit).  Extra characters are ignored and no a–h / 1–8 range
check is performed. -/
def notationToPos : List Char → Option (Int × Int)
  | c0 :: c1 :: _ =>
    match pyIntDigit c1 with
    | some d => some ((8 : Int) - (d : Int), (c0.toNat : Int) - 97)
    | none => none
  | _ => none

/-- Python `Move.from_notation`: split on `" to "`, require exactly two
parts, parse both; every failure raises `ValueError` (modelled as `none`). -/
def Move.fromNotation (s : String) : Option Move :=
  match splitToSep s.data with
  | [a, b] =>
    match notationToPos a, notationToPos b with
    | some f, some t => some { from_pos := f, to_pos := t }
    | _, _ => none
  | _ => none

/-- Python `pos_to_notation` (inner helper of `to_notation`):
`chr(ord('a') + col)` followed by `str(8 - row)`. -/
def posToNotation (p : Int × Int) : List Char :=
  Char.ofNat (97 + p.2).toNat :: (toString (8 - p.1)).data

/-- Python `Move.to_notation`: `f"{from_notation} to {to_notation}"`. -/
def Move.toNotation (m : Move) : String :=
  ⟨posToNotation m.from_pos ++ sepChars ++ posToNotation m.to_pos⟩

theorem splitToSep_no_space (l : List Char) (h : ∀ c ∈ l, c ≠ ' ') :
    splitToSep l = [l] := by
  induction l with
  | nil => rfl
  | cons c rest ih =>
    rw [splitToSep_cons_not_space c rest (h c (List.mem_cons_self c rest)),
      ih (fun x hx => h x (List.mem_cons_of_mem _ hx))]

theorem splitToSep_append_sep (a b : List Char) (h : ∀ c ∈ a, c ≠ ' ') :
    splitToSep (a ++ sepChars ++ b) = a :: splitToSep b := by
  induction a with
  | nil =>
    show splitToSep (' ' :: 't' :: 'o' :: ' ' :: b) = [] :: splitToSep b
    rfl
  | cons c a2 ih =>
    have hc := h c (List.mem_cons_self c a2)
    have hstep : ((c :: a2) ++ sepChars ++ b) = c :: (a2 ++ sepChars ++ b) := by simp
    rw [hstep, splitToSep_cons_not_space c _ hc,
      ih (fun x hx => h x (List.mem_cons_of_mem _ hx))]

theorem notationToPos_posToNotation {p : Int × Int}
    (h : Board.isValidPosition p.1 p.2) :
    notationToPos (posToNotation p) = some p := by
  obtain ⟨r, c⟩ := p
  obtain ⟨h1, h2, h3, h4⟩ := h
  interval_cases r <;> interval_cases c <;> decide

theorem posToNotation_no_space {p : Int × Int}
    (h : Board.isValidPosition p.1 p.2) :
    ∀ ch ∈ posToNotation p, ch ≠ ' ' := by
  obtain ⟨r, c⟩ := p
  obtain ⟨h1, h2, h3, h4⟩ := h
  interval_cases r <;> interval_cases c <;> decide

/-- C8: for every move whose two squares are in the 8×8 range,
`from_notation(to_notation(move))` succeeds and equals the original move
under the structural `Move.__eq__` (which ignores `is_capture`). -/
theorem claim_C8 (m : Move)
    (hf : Board.isValidPosition m.from_pos.1 m.from_pos.2)
    (ht : Board.isValidPosition m.to_pos.1 m.to_pos.2) :
    ∃ m2, Move.fromNotation m.toNotation = some m2 ∧ moveEq m2 m = true := by
  refine ⟨{ from_pos := m.from_pos, to_pos := m.to_pos }, ?_, ?_⟩
  · have hdata : (m.toNotation).data =
        posToNotation m.from_pos ++ sepChars ++ posToNotation m.to_pos := rfl
    rw [Move.fromNotation, hdata,
      splitToSep_append_sep _ _ (posToNotation_no_space hf),
      splitToSep_no_space _ (posToNotation_no_space ht)]
    dsimp only
    rw [notationToPos_posToNotation hf, notationToPos_posToNotation ht]
  · simp [moveEq]

/-- Witness for `claim_C8` at the concrete move e2→e3 (with its capture flag
set, to exercise the flag-ignoring equality). -/
theorem claim_C8_witness :
    ∃ m2, Move.fromNotation
        (Move.toNotation { from_pos := (6, 4), to_pos := (5, 4), is_capture := true }) =
        some m2 ∧
      moveEq m2 { from_pos := (6, 4), to_pos := (5, 4), is_capture := true } = true :=
  claim_C8 { from_pos := (6, 4), to_pos := (5, 4), is_capture := true }
    (by decide) (by decide)

/-- A part parses in `from_notation` exactly when it has at least two
characters and its second character is a Unicode decimal digit. -/
def partHasDigit : List Char → Bool
  | _ :: c1 :: _ => (pyIntDigit c1).isSome
  | _ => false

theorem notationToPos_isSome (l : List Char) :
    (notationToPos l).isSome = partHasDigit l := by
  cases l with
  | nil => rfl
  | cons c0 t =>
    cases t with
    | nil => rfl
    | cons c1 rest =>
      show (notationToPos (c0 :: c1 :: rest)).isSome = (pyIntDigit c1).isSome
      rw [notationToPos]
      cases hdc : pyIntDigit c1 <;> rfl

/-- C7 (counterexample): `from_notation` does NOT fail on every text outside
the `"<file><rank> to <file><rank>"` shape with file a–h and rank 1–8: the
malformed `"i9 to a1"` (file `i`, rank `9`) parses successfully, yielding the
out-of-range move `(-1, 8) → (7, 0)`. -/
theorem claim_C7_counterexample :
    Move.fromNotation "i9 to a1" =
      some { from_pos := (-1, 8), to_pos := (7, 0) } := by
  decide

/-- C7 (amended): `from_notation` fails exactly when splitting on `" to "`
does not yield two parts (delimiter absent or duplicated), or one of the two
parts has fewer than two characters, or its second character is not a
Unicode decimal digit (Python's `int()` also accepts the non-ASCII decimal
digits: `"a٣ to a1"` parses, see the example below).  It performs no
a–h / 1–8 range check, reads only each part's first two characters, and
ignores anything after them. -/
theorem claim_C7_amended (s : String) :
    (Move.fromNotation s).isSome =
      (match splitToSep s.data with
       | [a, b] => partHasDigit a && partHasDigit b
       | _ => false) := by
  rw [Move.fromNotation]
  cases hsp : splitToSep s.data with
  | nil => rfl
  | cons a t =>
    cases t with
    | nil => rfl
    | cons b t2 =>
      cases t2 with
      | cons c t3 => rfl
      | nil =>
        dsimp only
        rw [← notationToPos_isSome a, ← notationToPos_isSome b]
        cases hna : notationToPos a with
        | none => rfl
        | some f =>
          cases hnb : notationToPos b with
          | none => rfl
          | some t => rfl

/-! ### Tournament harness (`tournament.py`, C6) -/

/-- The engine-determined fields of the Python `GameResult` dataclass.
`timestamp` and `duration_seconds` are wall-clock values outside the model,
and `board_history` is carried along unchanged; note there is NO field that
could mark an incomplete/capped game. -/
structure GameResult where
  game_id : Nat
  player1_name : String
  player2_name : String
  winner : Option String
  loser : Option String
  is_draw : Bool
  moves : List String
  move_count : Nat
deriving DecidableEq, Repr

/-- The result-determination tail of `Tournament._play_game` (its
`if game.winner == Player.WHITE / BLACK / else` block plus the `GameResult`
construction): any final state without a winner — a genuine stalemate draw,
an agent-abort break, or a ply-cap exit alike — is recorded with
`is_draw = True`. -/
def buildResult (game_id : Nat) (game : Game) (whiteName blackName : String)
    (moves : List String) : GameResult :=
  match game.winner with
  | some Player.WHITE =>
    { game_id := game_id, player1_name := whiteName, player2_name := blackName
      winner := some whiteName, loser := some blackName, is_draw := false
      moves := moves, move_count := moves.length }
  | some Player.BLACK =>
    { game_id := game_id, player1_name := whiteName, player2_name := blackName
      winner := some blackName, loser := some whiteName, is_draw := false
      moves := moves, move_count := moves.length }
  | none =>
    { game_id := game_id, player1_name := whiteName, player2_name := blackName
      winner := none, loser := none, is_draw := true
      moves := moves, move_count := moves.length }

/-- The `while not game.game_over and move_count < max_moves` loop of
`_play_game`, with the remaining move budget as fuel and each agent as an
opaque move-choosing function (`player.get_move(game)`).  A move rejected by
`make_move` breaks the loop (Python logs the invalid move and breaks) with
the state unchanged; a successful move appends its notation and recurses. -/
def playLoop (white black : Game → Move) :
    Nat → Game → List String → Game × List String
  | 0, g, moves => (g, moves)
  | fuel + 1, g, moves =>
    if g.game_over then (g, moves)
    else
      match g.make_move ((if g.current_player = Player.WHITE then white else black) g) with
      | (false, _) => (g, moves)
      | (true, g2) =>
        playLoop white black fuel g2
          (moves ++ [((if g.current_player = Player.WHITE then white else black) g).toNotation])

/-- `Tournament._play_game` without timing/logging: a fresh game, the loop
with `max_moves = 200`, then the result determination. -/
def play_game (game_id : Nat) (white black : Game → Move)
    (whiteName blackName : String) : GameResult :=
  let r := playLoop white black 200 Game.init []
  buildResult game_id r.fst whiteName blackName r.snd

/-- `make_move` preserves the invariant "no winner while the game is not
over". -/
theorem make_move_winner_none {g : Game} (m : Move)
    (hinv : g.game_over = false → g.winner = none) :
    (g.make_move m).snd.game_over = false → (g.make_move m).snd.winner = none := by
  cases hl : g.is_legal_move m with
  | false => rw [make_move_illegal hl]; exact hinv
  | true =>
    rw [make_move_legal_eq hl]
    by_cases hc : (moveResult g m).game_over = false ∧ (moveResult g m).get_legal_moves = []
    · rw [if_pos hc]
      intro hgo
      exact absurd hgo (by simp)
    · rw [if_neg hc]
      intro hgo
      show (moveResult g m).winner = none
      have hgo2 : (g.game_over || check_win ⟨g.current_player⟩ m.to_pos) = false := hgo
      rw [Bool.or_eq_false_iff] at hgo2
      show (if check_win ⟨g.current_player⟩ m.to_pos then some g.current_player
        else g.winner) = none
      rw [hgo2.2, if_neg (by simp)]
      exact hinv hgo2.1

/-- The play loop preserves the same invariant: if it exits with the game not
over (ply cap reached or agent move rejected), no winner is recorded. -/
theorem playLoop_winner_none (white black : Game → Move) (fuel : Nat) :
    ∀ (g : Game) (moves : List String), (g.game_over = false → g.winner = none) →
      (playLoop white black fuel g moves).fst.game_over = false →
      (playLoop white black fuel g moves).fst.winner = none := by
  induction fuel with
  | zero => intro g moves hinv; exact hinv
  | succ n ih =>
    intro g moves hinv
    rw [playLoop]
    by_cases hgo : g.game_over
    · rw [if_pos hgo]; exact hinv
    · rw [if_neg hgo]
      cases hm : g.make_move ((if g.current_player = Player.WHITE then white else black) g) with
      | mk b g2 =>
        cases b with
        | false => exact hinv
        | true =>
          apply ih
          intro h2
          have hstep := make_move_winner_none
            ((if g.current_player = Player.WHITE then white else black) g) hinv
          rw [hm] at hstep
          exact hstep h2

/-- C6: when `_play_game`'s loop exits with the engine NOT in a terminal
state — which is how both the 200-ply cap exit and the invalid-move abort
leave it — the recorded `GameResult` has `winner = None`, `loser = None` and
`is_draw = True`: exactly the marking of a genuine draw.  `GameResult` has no
incompleteness field at all, so a capped game is NOT distinguishable from a
drawn game in the recorded output, contrary to the claim.  (The cap branch
itself is dead in practice: every move advances a piece one row, so a game
from the initial position lasts at most 177 plies.) -/
theorem claim_C6 (gid : Nat) (white black : Game → Move) (wn bn : String)
    (hcap : (playLoop white black 200 Game.init []).fst.game_over = false) :
    (play_game gid white black wn bn).is_draw = true ∧
    (play_game gid white black wn bn).winner = none ∧
    (play_game gid white black wn bn).loser = none := by
  have hw : (playLoop white black 200 Game.init []).fst.winner = none :=
    playLoop_winner_none white black 200 Game.init [] (fun _ => rfl) hcap
  simp only [play_game, buildResult]
  rw [hw]
  exact ⟨rfl, rfl, rfl⟩

/-- Witness for `claim_C6`: an agent that immediately offers the illegal
move (0,0)→(0,0) ends the loop with the game not over; the result is
recorded as a draw. -/
theorem claim_C6_witness :
    (play_game 0 (fun _ => { from_pos := (0, 0), to_pos := (0, 0) })
        (fun _ => { from_pos := (0, 0), to_pos := (0, 0) }) "A" "B").is_draw = true ∧
    (play_game 0 (fun _ => { from_pos := (0, 0), to_pos := (0, 0) })
        (fun _ => { from_pos := (0, 0), to_pos := (0, 0) }) "A" "B").winner = none ∧
    (play_game 0 (fun _ => { from_pos := (0, 0), to_pos := (0, 0) })
        (fun _ => { from_pos := (0, 0), to_pos := (0, 0) }) "A" "B").loser = none :=
  claim_C6 0 _ _ "A" "B" (by decide)

example :
    Move.fromNotation "a٣ to a1" = some { from_pos := (5, 0), to_pos := (7, 0) } := by
  decide
